import Mathlib

set_option autoImplicit false

/-!
Shallow embedding of `src/lsp/src/main.rs` of `typst-languagetool` (the LSP
server binary).  Pure data is translated directly; the external collaborators
(the typst compiler world, the segmenter, the LanguageTool analyzer backend and
the diagnostic collector) are passed in as explicit function parameters, and
the blocking channel receive of the scheduler is modelled by an explicit
`RecvOutcome` input describing which of the two wake-up events happened first.
`std::time::Instant` values are modelled as natural numbers.
-/

namespace TypstLsp

/-- Opaque inbound protocol message (`lsp_server::Message`); its content is
irrelevant to the scheduler. -/
abbrev Msg := Nat

/-- Opaque compiled document (`typst::model::Document` returned by
`world.compile()`). -/
abbrev Doc := Nat

/-- `struct CheckData { check_time, url, path }`: the single armed pending
check. -/
structure CheckData where
  check_time : Nat
  url : String
  path : String
deriving Repr, DecidableEq

/-- `enum Action { Message(Message), Check(CheckData) }`. -/
inductive Action where
  | message : Msg → Action
  | check : CheckData → Action
deriving Repr, DecidableEq

/-- `struct Options { chunk_size, on_change, language_codes }`.  The
`language_codes` HashMap is modelled as an association list whose head entry
wins on lookup. -/
structure Options where
  chunk_size : Nat
  on_change : Option Nat
  language_codes : List (String × String)
deriving Repr, DecidableEq

/-- Modelled from the spec: the compiler "world" (`lt_world::LtWorld`, not part
of the embedded source file).  It holds the project main file, the optional
root, and the shadow buffers installed by `use_shadow_file`; its
compile/segment operations are out of scope and appear as parameters. -/
structure LtWorld where
  main : String
  root : Option String
  shadows : List (String × String)
deriving Repr, DecidableEq

/-- Modelled from the spec: `LtWorld::use_shadow_file(path, text)` installs a
shadow buffer for a document, overriding the on-disk view. -/
def LtWorld.use_shadow_file (w : LtWorld) (path text : String) : LtWorld :=
  { w with shadows := (path, text) :: w.shadows.filter (fun p => !(p.1 == path)) }

/-- Modelled from the spec: `LtWorld::use_original_file(path)` removes the
shadow buffer, reverting reads to the on-disk file. -/
def LtWorld.use_original_file (w : LtWorld) (path : String) : LtWorld :=
  { w with shadows := w.shadows.filter (fun p => !(p.1 == path)) }

/-- Modelled from the spec: `LtWorld::update(main, root)` repoints the world at
a new project main file and root. -/
def LtWorld.update (w : LtWorld) (main : String) (root : Option String) : LtWorld :=
  { w with main := main, root := root }

/-- One external finding (`typst_languagetool::Suggestion`): rule id, message,
replacement list and a byte range inside the segment text. -/
structure Suggestion where
  rule_id : String
  message : String
  replacements : List String
  start : Nat
  stop : Nat
deriving Repr, DecidableEq

/-- `struct Cache { cache: HashMap<String, Vec<Suggestion>> }`, modelled as an
association list with unique keys (insert erases the old binding). -/
structure Cache where
  cache : List (String × List Suggestion)
deriving Repr, DecidableEq

/-- `Cache::new()`. -/
def Cache.new : Cache := ⟨[]⟩

/-- `Cache::get(&mut self, text)` is `self.cache.remove(text)`: it returns the
stored suggestions *and removes the entry* on a hit.  The mutation of `self`
is made explicit by returning the updated cache. -/
def Cache.get (c : Cache) (text : String) : Option (List Suggestion) × Cache :=
  match c.cache.lookup text with
  | some s => (some s, ⟨c.cache.filter (fun p => !(p.1 == text))⟩)
  | none => (none, c)

/-- `Cache::insert(text, suggestions)` (HashMap insert: replaces any existing
binding for the key). -/
def Cache.insert (c : Cache) (text : String) (s : List Suggestion) : Cache :=
  ⟨(text, s) :: c.cache.filter (fun p => !(p.1 == text))⟩

/-- The mutable session state `struct State` (the external handles
`connection` and `lt` are omitted; the analyzer appears as a function
parameter where it is called). -/
structure State where
  world : LtWorld
  cache : Cache
  check : Option CheckData
  options : Options
deriving Repr, DecidableEq

/-- Outcome of the scheduler's blocking wait: either an inbound message was
received (before the deadline, when one was armed), or the wait timed out at
the armed deadline. -/
inductive RecvOutcome where
  | msg : Msg → RecvOutcome
  | timeout : RecvOutcome
deriving Repr, DecidableEq

/-- `State::next_action`.  With a `CheckData` armed it waits with
`recv_deadline(check_time)`: a message yields `Action::Message` and leaves the
pending check untouched, a timeout yields `Action::Check(self.check.take())`,
clearing the pending check.  With nothing armed it blocks in `recv()`, so a
plain timeout is impossible (`none`). -/
def State.next_action (st : State) (r : RecvOutcome) : Option (Action × State) :=
  match st.check, r with
  | some _, RecvOutcome.msg m => some (Action.message m, st)
  | some cd, RecvOutcome.timeout => some (Action.check cd, { st with check := none })
  | none, RecvOutcome.msg m => some (Action.message m, st)
  | none, RecvOutcome.timeout => none

/-- `State::file_save`: arm an immediate check (`check_time = now`) for the
saved document, replacing any armed check. -/
def State.file_save (st : State) (now : Nat) (url path : String) : State :=
  { st with check := some ⟨now, url, path⟩ }

/-- `State::file_open`: install the shadow buffer for the opened document and
arm an immediate check, replacing any armed check. -/
def State.file_open (st : State) (now : Nat) (url path text : String) : State :=
  { st with
      world := st.world.use_shadow_file path text,
      check := some ⟨now, url, path⟩ }

/-- `State::file_close`: drop the shadow buffer; the pending check is not
touched. -/
def State.file_close (st : State) (path : String) : State :=
  { st with world := st.world.use_original_file path }

/-- `State::file_change`: apply the edits to the document's shadow buffer
(the byte splicing itself is done by the external `typst::syntax::Source`
editor, abstracted as `applyEdits`), then — only when `options.on_change` is
configured — arm a check with deadline `now + duration`, replacing any armed
check.  Without a configured duration the function returns right after the
edit loop. -/
def State.file_change (st : State) (now : Nat) (url path : String)
    (applyEdits : String → String) : State :=
  let world :=
    { st.world with
        shadows := st.world.shadows.map
          (fun p => if p.1 == path then (p.1, applyEdits p.2) else p) }
  let st := { st with world := world }
  match st.options.on_change with
  | none => st
  | some duration => { st with check := some ⟨now + duration, url, path⟩ }

/-- A document-lifecycle event as routed by `State::notification`. -/
inductive Event where
  | open_ : String → String → String → Event
  | save : String → String → Event
  | change : String → String → (String → String) → Event
  | close : String → Event

/-- Dispatch one event at time `now` to its handler. -/
def applyEvent (st : State) (now : Nat) : Event → State
  | Event.open_ url path text => st.file_open now url path text
  | Event.save url path => st.file_save now url path
  | Event.change url path f => st.file_change now url path f
  | Event.close path => st.file_close path

/-- Process a timed event sequence in order. -/
def processEvents (st : State) : List (Nat × Event) → State
  | [] => st
  | (now, e) :: rest => processEvents (applyEvent st now e) rest

/-- The number of live pending checks in a state. -/
def pendingCount (st : State) : Nat :=
  match st.check with
  | some _ => 1
  | none => 0

/-- The `CheckData` (if any) that processing an event arms, as a function of
the options and the event alone: open/save arm an immediate check, change arms
`now + duration` exactly when `on_change` is configured, close arms nothing. -/
def armedData (opts : Options) (now : Nat) : Event → Option CheckData
  | Event.open_ url path _ => some ⟨now, url, path⟩
  | Event.save url path => some ⟨now, url, path⟩
  | Event.change url path _ => opts.on_change.map (fun d => ⟨now + d, url, path⟩)
  | Event.close _ => none

/-- Modelled from the spec: an analyzable segment's source mapping
(`typst_languagetool` side; opaque to this core beyond its language tag, which
it exposes both in full and with the region suffix stripped). -/
structure Mapping where
  language : String
  src_id : Nat
deriving Repr, DecidableEq

/-- `lang.split('-').next().unwrap_or("")`: the tag up to (but excluding) the
first `-`, i.e. the tag with any region suffix stripped. -/
def baseTag (s : String) : String :=
  String.mk (s.data.takeWhile (fun c => !(c == '-')))

/-- Modelled from the spec: `Mapping::short_language()` — the segment's
language tag with any region suffix stripped (the part before the first
`-`). -/
def Mapping.short_language (m : Mapping) : String :=
  baseTag m.language

/-- Modelled from the spec: `Mapping::long_language()` — the segment's full
language tag. -/
def Mapping.long_language (m : Mapping) : String :=
  m.language

/-- `HashMap::insert` semantics on the association-list model: the new binding
replaces any existing binding of the key. -/
def hashMapInsert (m : List (String × String)) (k v : String) : List (String × String) :=
  (k, v) :: m.filter (fun p => !(p.1 == k))

/-- `create_language_map(codes)`: map each configured language tag to the pair
(tag before the first `-`, full tag) and collect into a HashMap, so for
duplicate base tags the later configured tag wins. -/
def create_language_map (codes : List String) : List (String × String) :=
  codes.foldl (fun m lang => hashMapInsert m (baseTag lang) lang) []

/-- The language-resolution expression of the check loop:
`language_codes.get(mapping.short_language()).cloned().unwrap_or(mapping.long_language())`. -/
def resolveLang (codes : List (String × String)) (m : Mapping) : String :=
  match codes.lookup m.short_language with
  | some x => x
  | none => m.long_language

/-- Result of a completed check loop: the `(suggestions, mapping)` pairs fed
to the collector in segment order, the freshly built cache, the previous-pass
cache after its consuming lookups, and — as observations not present in the
mutable Rust state — the list of texts that were cache hits and the
`(language, text)` analyzer invocations in order. -/
structure PassResult where
  collected : List (List Suggestion × Mapping)
  next_cache : Cache
  cache : Cache
  hits : List String
  analyzed : List (String × String)
deriving Repr

/-- An aborted check loop: the propagated analyzer error together with the
state the previous-pass cache was left in (its hits already consumed), plus
the same observation lists. -/
structure PassError where
  err : String
  cache : Cache
  hits : List String
  analyzed : List (String × String)
deriving Repr

/-- The per-segment loop of `State::get_diagnostics`: for each `(text,
mapping)` in order, resolve the language, look the text up in the
previous-pass cache (`Cache::get`, which removes the entry on a hit), on a
miss call the analyzer (`lt.check_text`, propagating its error with `?`), and
insert the resulting suggestions into the new cache under the text. -/
def runSegments (analyze : String → String → Except String (List Suggestion))
    (codes : List (String × String)) :
    List (String × Mapping) → Cache → Cache → List String → List (String × String) →
      List (List Suggestion × Mapping) → Except PassError PassResult
  | [], cache, next_cache, hits, analyzed, acc =>
    Except.ok ⟨acc, next_cache, cache, hits, analyzed⟩
  | (text, mapping) :: rest, cache, next_cache, hits, analyzed, acc =>
    let lang := resolveLang codes mapping
    match Cache.get cache text with
    | (some suggestions, cache) =>
      runSegments analyze codes rest cache (next_cache.insert text suggestions)
        (hits ++ [text]) analyzed (acc ++ [(suggestions, mapping)])
    | (none, cache) =>
      match analyze lang text with
      | Except.error e => Except.error ⟨e, cache, hits, analyzed ++ [(lang, text)]⟩
      | Except.ok suggestions =>
        runSegments analyze codes rest cache (next_cache.insert text suggestions)
          hits (analyzed ++ [(lang, text)]) (acc ++ [(suggestions, mapping)])

/-- An LSP position (`line`, `character`). -/
structure Position where
  line : Nat
  character : Nat
deriving Repr, DecidableEq

/-- An LSP range; `end` is a reserved word, so the field is named `stop`. -/
structure Range where
  start : Position
  stop : Position
deriving Repr, DecidableEq

/-- A `serde_json::Value`. -/
inductive Json where
  | null : Json
  | bool : Bool → Json
  | num : Int → Json
  | str : String → Json
  | arr : List Json → Json
  | obj : List (String × Json) → Json
deriving Repr

/-- `serde_json::from_value::<String>` on one element. -/
def asString : Json → Option String
  | Json.str s => some s
  | _ => none

/-- `serde_json::from_value::<Vec<String>>(data)`: succeeds exactly when the
value is an array whose elements are all strings. -/
def parseStringList : Json → Option (List String)
  | Json.arr xs => xs.mapM asString
  | _ => none

/-- An LSP diagnostic, with the fields this server reads or writes: the range,
severity, rule code, message, and the opaque replacement-list payload
`data`. -/
structure Diagnostic where
  range : Range
  severity : Option Nat
  code : Option String
  message : String
  data : Option Json
deriving Repr

/-- The external collaborators of a check pass: the compiler
(`world.compile()`), the segmenter (`typst_languagetool::convert::document`),
the analyzer backend (`lt.check_text`), and the collector-plus-position-mapper
that turns the collected `(suggestions, mapping)` pairs into published
diagnostics (`FileCollector` and `byte_to_position`). -/
structure Externals where
  compile : LtWorld → Except (List String) Doc
  segment : Doc → Nat → String → List (String × Mapping)
  analyze : String → String → Except String (List Suggestion)
  finishDiags : List (List Suggestion × Mapping) → List Diagnostic

/-- `State::get_diagnostics(path)`.  On compile failure the compiler's
diagnostics are logged and the function returns `Ok(vec![])` without touching
the cache.  Otherwise the segment loop runs; on success the state's cache is
replaced by the freshly built one, on an analyzer error the `?` operator
propagates the error, leaving the cache as the loop's lookups mutated it. -/
def State.get_diagnostics (st : State) (ext : Externals) (path : String) :
    Except String (List Diagnostic) × State :=
  match ext.compile st.world with
  | Except.error _compileDiags => (Except.ok [], st)
  | Except.ok doc =>
    let paragraphs := ext.segment doc st.options.chunk_size path
    match runSegments ext.analyze st.options.language_codes paragraphs st.cache
        Cache.new [] [] [] with
    | Except.error pe => (Except.error pe.err, { st with cache := pe.cache })
    | Except.ok res =>
      (Except.ok (ext.finishDiags res.collected), { st with cache := res.next_cache })

/-- `State::check_change(path, url)`: run `get_diagnostics`; on error, log it
and return `Ok(())` publishing nothing; on success, publish the diagnostics
(possibly empty) for the document.  The published list is returned as the
first component (`none` = nothing published). -/
def State.check_change (st : State) (ext : Externals) (path _url : String) :
    Option (List Diagnostic) × State :=
  match st.get_diagnostics ext path with
  | (Except.error _e, st) => (none, st)
  | (Except.ok diagnostics, st) => (some diagnostics, st)

/-- `struct InitOptions` (the option set accepted at startup and on
live reconfiguration).  Durations are modelled in abstract ticks. -/
structure InitOptions where
  dictionary : List (String × List String)
  disabled_checks : List (String × List String)
  languages : List String
  bundled : Bool
  jar_location : Option String
  host : Option String
  port : Option String
  chunk_size : Nat
  on_change : Option Nat
  root : Option String
  main : Option String
deriving Repr

/-- `State::config_change`.  `parsed = none` models a deserialization failure
(logged, update dropped); `ltOk = false` models `create_lt` failing (logged,
update dropped).  On success: the analyzer handle is replaced (external,
not part of the modelled state), the world is repointed when a main file is
given, and the options are rebuilt.  The suggestion cache and the pending
check are not touched. -/
def State.config_change (st : State) (parsed : Option InitOptions) (ltOk : Bool) : State :=
  match parsed with
  | none => st
  | some opts =>
    if ltOk then
      let world :=
        match opts.main with
        | some m => st.world.update m opts.root
        | none => st.world
      { st with
          world := world,
          options :=
            { on_change := opts.on_change,
              chunk_size := opts.chunk_size,
              language_codes := create_language_map opts.languages } }
    else st

/-- An LSP text edit. -/
structure TextEdit where
  range : Range
  new_text : String
deriving Repr

/-- An LSP workspace edit, reduced to its `changes` map. -/
structure WorkspaceEdit where
  changes : List (String × List TextEdit)
deriving Repr

/-- An LSP code action with the fields this server fills in. -/
structure CodeAction where
  title : String
  kind : Option String
  diagnostics : Option (List Diagnostic)
  edit : Option WorkspaceEdit
  is_preferred : Option Bool
deriving Repr

/-- The parts of `CodeActionParams` the handler reads: the document URI and
`context.diagnostics`. -/
structure CodeActionParams where
  uri : String
  diagnostics : List Diagnostic
deriving Repr

/-- `State::code_action(params)` (it reads nothing from `self`): anchor on the
*last* diagnostic of the request context; with no diagnostic, no payload, or a
payload that fails to parse as `Vec<String>`, answer `Ok(None)`; otherwise
build one quick fix per replacement, in payload order, the i-th titled
`Replace with "<replacement>"` with a single text edit replacing the
diagnostic's range, and only the first marked preferred. -/
def code_action (params : CodeActionParams) : Option (List CodeAction) :=
  match params.diagnostics.getLast? with
  | none => none
  | some diagnostic =>
    match diagnostic.data with
    | none => none
    | some data =>
      match parseStringList data with
      | none => none
      | some replacements =>
        some (replacements.enum.map (fun iv =>
          { title := "Replace with \"" ++ iv.2 ++ "\""
            kind := some "quickfix"
            diagnostics := some params.diagnostics
            edit := some ⟨[(params.uri, [⟨diagnostic.range, iv.2⟩])]⟩
            is_preferred := some (iv.1 == 0) }))

/-- The previous-pass cache as a check loop leaves it, in both outcomes. -/
def passCache : Except PassError PassResult → Cache
  | Except.ok r => r.cache
  | Except.error e => e.cache

/-- The analyzer invocations of a check loop, in both outcomes. -/
def passAnalyzed : Except PassError PassResult → List (String × String)
  | Except.ok r => r.analyzed
  | Except.error e => e.analyzed

/-- The cache-hit texts of a check loop, in both outcomes. -/
def passHits : Except PassError PassResult → List String
  | Except.ok r => r.hits
  | Except.error e => e.hits

/-- The spec's wording of language resolution, stated on one bare tag: strip
any region suffix to get the base tag; if a configured override for that base
tag exists, use it; otherwise fall back to the full tag. -/
def resolveLangSpec (overrides : List (String × String)) (tag : String) : String :=
  match overrides.lookup (baseTag tag) with
  | some o => o
  | none => tag

/-! ## Helper lemmas -/

theorem pendingCount_le_one (st : State) : pendingCount st ≤ 1 := by
  unfold pendingCount
  split <;> simp

theorem applyEvent_options (st : State) (now : Nat) (e : Event) :
    (applyEvent st now e).options = st.options := by
  cases e with
  | open_ url path text => rfl
  | save url path => rfl
  | change url path f =>
    show (State.file_change st now url path f).options = st.options
    unfold State.file_change
    cases h : st.options.on_change <;> simp [h]
  | close path => rfl

theorem processEvents_append (st : State) (es fs : List (Nat × Event)) :
    processEvents st (es ++ fs) = processEvents (processEvents st es) fs := by
  induction es generalizing st with
  | nil => rfl
  | cons x rest ih =>
    cases x with
    | mk now e => simp [processEvents, ih]

theorem processEvents_options (st : State) (es : List (Nat × Event)) :
    (processEvents st es).options = st.options := by
  induction es generalizing st with
  | nil => rfl
  | cons x rest ih =>
    cases x with
    | mk now e =>
      show (processEvents (applyEvent st now e) rest).options = st.options
      rw [ih, applyEvent_options]

theorem applyEvent_check_armed (st : State) (now : Nat) (e : Event) (cd : CheckData)
    (h : armedData st.options now e = some cd) :
    (applyEvent st now e).check = some cd := by
  cases e with
  | open_ url path text =>
    simp [armedData] at h
    simp [applyEvent, State.file_open, ← h]
  | save url path =>
    simp [armedData] at h
    simp [applyEvent, State.file_save, ← h]
  | change url path f =>
    simp [armedData] at h
    cases hd : st.options.on_change with
    | none => rw [hd] at h; simp at h
    | some d =>
      rw [hd] at h
      simp at h
      simp [applyEvent, State.file_change, hd, ← h]
  | close path => simp [armedData] at h

theorem lookup_cons_eq {α : Type} (k a : String) (v : α) (l : List (String × α)) :
    ((k, v) :: l).lookup a = if a = k then some v else l.lookup a := by
  by_cases h : a = k
  · simp [List.lookup, h]
  · have hb : (a == k) = false := beq_eq_false_iff_ne.mpr h
    simp [List.lookup, hb, h]

theorem lookup_filter_key_self {α : Type} (t : String) (l : List (String × α)) :
    (l.filter (fun p => !(p.1 == t))).lookup t = none := by
  induction l with
  | nil => rfl
  | cons x rest ih =>
    rcases x with ⟨k, v⟩
    rw [List.filter_cons]
    by_cases hk : k = t
    · subst hk
      simpa using ih
    · have hb : (k == t) = false := beq_eq_false_iff_ne.mpr hk
      simp only [hb, Bool.not_false, if_pos]
      rw [lookup_cons_eq]
      simp [Ne.symm hk, ih]

theorem lookup_filter_key_other {α : Type} (t a : String) (hne : a ≠ t)
    (l : List (String × α)) :
    (l.filter (fun p => !(p.1 == t))).lookup a = l.lookup a := by
  induction l with
  | nil => rfl
  | cons x rest ih =>
    rcases x with ⟨k, v⟩
    rw [List.filter_cons]
    by_cases hk : k = t
    · subst hk
      simp only [beq_self_eq_true, Bool.not_true, if_neg, Bool.false_eq_true,
        not_false_iff]
      rw [ih, lookup_cons_eq]
      simp [hne]
    · have hb : (k == t) = false := beq_eq_false_iff_ne.mpr hk
      simp only [hb, Bool.not_false, if_pos]
      rw [lookup_cons_eq, lookup_cons_eq, ih]

theorem Cache.get_hit (c : Cache) (t : String) (s : List Suggestion)
    (h : c.cache.lookup t = some s) :
    Cache.get c t = (some s, ⟨c.cache.filter (fun p => !(p.1 == t))⟩) := by
  unfold Cache.get
  rw [h]

theorem Cache.get_miss (c : Cache) (t : String) (h : c.cache.lookup t = none) :
    Cache.get c t = (none, c) := by
  unfold Cache.get
  rw [h]

theorem runSegments_nil (A : String → String → Except String (List Suggestion))
    (codes : List (String × String)) (c nc : Cache) (h : List String)
    (a : List (String × String)) (acc : List (List Suggestion × Mapping)) :
    runSegments A codes [] c nc h a acc = Except.ok ⟨acc, nc, c, h, a⟩ := rfl

theorem runSegments_cons_hit (A : String → String → Except String (List Suggestion))
    (codes : List (String × String)) (t : String) (m : Mapping)
    (rest : List (String × Mapping)) (c nc : Cache) (h : List String)
    (a : List (String × String)) (acc : List (List Suggestion × Mapping))
    (s : List Suggestion) (hl : c.cache.lookup t = some s) :
    runSegments A codes ((t, m) :: rest) c nc h a acc
      = runSegments A codes rest ⟨c.cache.filter (fun p => !(p.1 == t))⟩
          (nc.insert t s) (h ++ [t]) a (acc ++ [(s, m)]) := by
  simp only [runSegments, Cache.get_hit c t s hl]

theorem runSegments_cons_miss_error (A : String → String → Except String (List Suggestion))
    (codes : List (String × String)) (t : String) (m : Mapping)
    (rest : List (String × Mapping)) (c nc : Cache) (h : List String)
    (a : List (String × String)) (acc : List (List Suggestion × Mapping))
    (e : String) (hl : c.cache.lookup t = none)
    (he : A (resolveLang codes m) t = Except.error e) :
    runSegments A codes ((t, m) :: rest) c nc h a acc
      = Except.error ⟨e, c, h, a ++ [(resolveLang codes m, t)]⟩ := by
  simp only [runSegments, Cache.get_miss c t hl, he]

theorem runSegments_cons_miss_ok (A : String → String → Except String (List Suggestion))
    (codes : List (String × String)) (t : String) (m : Mapping)
    (rest : List (String × Mapping)) (c nc : Cache) (h : List String)
    (a : List (String × String)) (acc : List (List Suggestion × Mapping))
    (s : List Suggestion) (hl : c.cache.lookup t = none)
    (hok : A (resolveLang codes m) t = Except.ok s) :
    runSegments A codes ((t, m) :: rest) c nc h a acc
      = runSegments A codes rest c (nc.insert t s) h
          (a ++ [(resolveLang codes m, t)]) (acc ++ [(s, m)]) := by
  simp only [runSegments, Cache.get_miss c t hl, hok]

theorem runSegments_lookup_none_preserved
    (A : String → String → Except String (List Suggestion))
    (codes : List (String × String)) (t : String) :
    ∀ (segs : List (String × Mapping)) (c nc : Cache) (h : List String)
      (a : List (String × String)) (acc : List (List Suggestion × Mapping)),
      c.cache.lookup t = none →
      (passCache (runSegments A codes segs c nc h a acc)).cache.lookup t = none := by
  intro segs
  induction segs with
  | nil =>
    intro c nc h a acc hc
    simpa [runSegments_nil, passCache] using hc
  | cons x rest ih =>
    rcases x with ⟨tx, mx⟩
    intro c nc h a acc hc
    rcases hl : c.cache.lookup tx with _ | s
    · rcases hA : A (resolveLang codes mx) tx with e | s
      · rw [runSegments_cons_miss_error A codes tx mx rest c nc h a acc e hl hA]
        simpa [passCache] using hc
      · rw [runSegments_cons_miss_ok A codes tx mx rest c nc h a acc s hl hA]
        exact ih _ _ _ _ _ hc
    · rw [runSegments_cons_hit A codes tx mx rest c nc h a acc s hl]
      apply ih
      by_cases htx : tx = t
      · subst htx
        exact lookup_filter_key_self tx c.cache
      · rw [lookup_filter_key_other tx t (Ne.symm htx) c.cache]
        exact hc

theorem runSegments_lookup_preserved
    (A : String → String → Except String (List Suggestion))
    (codes : List (String × String)) (t : String) :
    ∀ (segs : List (String × Mapping)) (c nc : Cache) (h : List String)
      (a : List (String × String)) (acc : List (List Suggestion × Mapping)),
      t ∉ segs.map Prod.fst →
      (passCache (runSegments A codes segs c nc h a acc)).cache.lookup t
        = c.cache.lookup t := by
  intro segs
  induction segs with
  | nil =>
    intro c nc h a acc _
    simp [runSegments_nil, passCache]
  | cons x rest ih =>
    rcases x with ⟨tx, mx⟩
    intro c nc h a acc hmem
    have htx : t ≠ tx := by
      intro hEq
      exact hmem (by simp [hEq])
    have hrest : t ∉ rest.map Prod.fst := by
      intro hr
      exact hmem (by simp [hr])
    rcases hl : c.cache.lookup tx with _ | s
    · rcases hA : A (resolveLang codes mx) tx with e | s
      · rw [runSegments_cons_miss_error A codes tx mx rest c nc h a acc e hl hA]
        simp [passCache]
      · rw [runSegments_cons_miss_ok A codes tx mx rest c nc h a acc s hl hA]
        exact ih _ _ _ _ _ hrest
    · rw [runSegments_cons_hit A codes tx mx rest c nc h a acc s hl]
      rw [ih _ _ _ _ _ hrest]
      exact lookup_filter_key_other tx t htx c.cache

theorem runSegments_analyzed_mono
    (A : String → String → Except String (List Suggestion))
    (codes : List (String × String)) :
    ∀ (segs : List (String × Mapping)) (c nc : Cache) (h : List String)
      (a : List (String × String)) (acc : List (List Suggestion × Mapping))
      (p : String × String), p ∈ a →
      p ∈ passAnalyzed (runSegments A codes segs c nc h a acc) := by
  intro segs
  induction segs with
  | nil =>
    intro c nc h a acc p hp
    simpa [runSegments_nil, passAnalyzed] using hp
  | cons x rest ih =>
    rcases x with ⟨tx, mx⟩
    intro c nc h a acc p hp
    rcases hl : c.cache.lookup tx with _ | s
    · rcases hA : A (resolveLang codes mx) tx with e | s
      · rw [runSegments_cons_miss_error A codes tx mx rest c nc h a acc e hl hA]
        simp only [passAnalyzed]
        exact List.mem_append_left _ hp
      · rw [runSegments_cons_miss_ok A codes tx mx rest c nc h a acc s hl hA]
        exact ih _ _ _ _ _ p (List.mem_append_left _ hp)
    · rw [runSegments_cons_hit A codes tx mx rest c nc h a acc s hl]
      exact ih _ _ _ _ _ p hp

theorem runSegments_hits_mono
    (A : String → String → Except String (List Suggestion))
    (codes : List (String × String)) :
    ∀ (segs : List (String × Mapping)) (c nc : Cache) (h : List String)
      (a : List (String × String)) (acc : List (List Suggestion × Mapping))
      (t : String), t ∈ h →
      t ∈ passHits (runSegments A codes segs c nc h a acc) := by
  intro segs
  induction segs with
  | nil =>
    intro c nc h a acc t ht
    simpa [runSegments_nil, passHits] using ht
  | cons x rest ih =>
    rcases x with ⟨tx, mx⟩
    intro c nc h a acc t ht
    rcases hl : c.cache.lookup tx with _ | s
    · rcases hA : A (resolveLang codes mx) tx with e | s
      · rw [runSegments_cons_miss_error A codes tx mx rest c nc h a acc e hl hA]
        simpa [passHits] using ht
      · rw [runSegments_cons_miss_ok A codes tx mx rest c nc h a acc s hl hA]
        exact ih _ _ _ _ _ t ht
    · rw [runSegments_cons_hit A codes tx mx rest c nc h a acc s hl]
      exact ih _ _ _ _ _ t (List.mem_append_left _ ht)

theorem runSegments_collected_mono
    (A : String → String → Except String (List Suggestion))
    (codes : List (String × String)) :
    ∀ (segs : List (String × Mapping)) (c nc : Cache) (h : List String)
      (a : List (String × String)) (acc : List (List Suggestion × Mapping))
      (r : PassResult), runSegments A codes segs c nc h a acc = Except.ok r →
      ∀ x ∈ acc, x ∈ r.collected := by
  intro segs
  induction segs with
  | nil =>
    intro c nc h a acc r hr x hx
    rw [runSegments_nil] at hr
    injection hr with hr1
    subst hr1
    exact hx
  | cons x rest ih =>
    rcases x with ⟨tx, mx⟩
    intro c nc h a acc r hr y hy
    rcases hl : c.cache.lookup tx with _ | s
    · rcases hA : A (resolveLang codes mx) tx with e | s
      · rw [runSegments_cons_miss_error A codes tx mx rest c nc h a acc e hl hA] at hr
        cases hr
      · rw [runSegments_cons_miss_ok A codes tx mx rest c nc h a acc s hl hA] at hr
        exact ih _ _ _ _ _ r hr y (List.mem_append_left _ hy)
    · rw [runSegments_cons_hit A codes tx mx rest c nc h a acc s hl] at hr
      exact ih _ _ _ _ _ r hr y (List.mem_append_left _ hy)

theorem runSegments_analyzed_from
    (A : String → String → Except String (List Suggestion))
    (codes : List (String × String)) :
    ∀ (segs : List (String × Mapping)) (c nc : Cache) (h : List String)
      (a : List (String × String)) (acc : List (List Suggestion × Mapping))
      (p : String × String),
      p ∈ passAnalyzed (runSegments A codes segs c nc h a acc) →
      p ∈ a ∨ ∃ tm, tm ∈ segs ∧ p = (resolveLang codes tm.2, tm.1) := by
  intro segs
  induction segs with
  | nil =>
    intro c nc h a acc p hp
    left
    simpa [runSegments_nil, passAnalyzed] using hp
  | cons x rest ih =>
    rcases x with ⟨tx, mx⟩
    intro c nc h a acc p hp
    rcases hl : c.cache.lookup tx with _ | s
    · rcases hA : A (resolveLang codes mx) tx with e | s
      · rw [runSegments_cons_miss_error A codes tx mx rest c nc h a acc e hl hA] at hp
        simp only [passAnalyzed] at hp
        rcases List.mem_append.mp hp with h1 | h2
        · left
          exact h1
        · right
          exact ⟨(tx, mx), by simp, by simpa using h2⟩
      · rw [runSegments_cons_miss_ok A codes tx mx rest c nc h a acc s hl hA] at hp
        rcases ih _ _ _ _ _ p hp with h1 | ⟨tm, htm, hpe⟩
        · rcases List.mem_append.mp h1 with ha | hb
          · left
            exact ha
          · right
            exact ⟨(tx, mx), by simp, by simpa using hb⟩
        · right
          exact ⟨tm, by simp [htm], hpe⟩
    · rw [runSegments_cons_hit A codes tx mx rest c nc h a acc s hl] at hp
      rcases ih _ _ _ _ _ p hp with h1 | ⟨tm, htm, hpe⟩
      · left
        exact h1
      · right
        exact ⟨tm, by simp [htm], hpe⟩

theorem runSegments_error_hits_removed
    (A : String → String → Except String (List Suggestion))
    (codes : List (String × String)) :
    ∀ (segs : List (String × Mapping)) (c nc : Cache) (h : List String)
      (a : List (String × String)) (acc : List (List Suggestion × Mapping))
      (pe : PassError),
      runSegments A codes segs c nc h a acc = Except.error pe →
      ∀ t, t ∈ pe.hits → t ∉ h →
        pe.cache.cache.lookup t = none ∧ c.cache.lookup t ≠ none := by
  intro segs
  induction segs with
  | nil =>
    intro c nc h a acc pe hr
    rw [runSegments_nil] at hr
    cases hr
  | cons x rest ih =>
    rcases x with ⟨tx, mx⟩
    intro c nc h a acc pe hr t ht hth
    rcases hl : c.cache.lookup tx with _ | s
    · rcases hA : A (resolveLang codes mx) tx with e | s
      · rw [runSegments_cons_miss_error A codes tx mx rest c nc h a acc e hl hA] at hr
        injection hr with hr1
        subst hr1
        exact absurd ht hth
      · rw [runSegments_cons_miss_ok A codes tx mx rest c nc h a acc s hl hA] at hr
        exact ih _ _ _ _ _ pe hr t ht hth
    · rw [runSegments_cons_hit A codes tx mx rest c nc h a acc s hl] at hr
      by_cases htx : t = tx
      · subst htx
        constructor
        · have h0 : (⟨c.cache.filter (fun p => !(p.1 == t))⟩ : Cache).cache.lookup t
              = none := lookup_filter_key_self t c.cache
          have hnp := runSegments_lookup_none_preserved A codes t rest
            ⟨c.cache.filter (fun p => !(p.1 == t))⟩ (nc.insert t s) (h ++ [t]) a
            (acc ++ [(s, mx)]) h0
          rw [hr] at hnp
          simpa [passCache] using hnp
        · rw [hl]
          simp
      · have hth2 : t ∉ h ++ [tx] := by
          intro hmem
          rcases List.mem_append.mp hmem with hx | hx
          · exact hth hx
          · exact htx (by simpa using hx)
        have hres := ih _ _ _ _ _ pe hr t ht hth2
        refine ⟨hres.1, ?_⟩
        have h2 := hres.2
        rw [lookup_filter_key_other tx t htx c.cache] at h2
        exact h2

theorem runSegments_ok_of_total (A : String → String → List Suggestion)
    (codes : List (String × String)) :
    ∀ (segs : List (String × Mapping)) (c nc : Cache) (h : List String)
      (a : List (String × String)) (acc : List (List Suggestion × Mapping)),
      ∃ r, runSegments (fun l x => Except.ok (A l x)) codes segs c nc h a acc
        = Except.ok r := by
  intro segs
  induction segs with
  | nil =>
    intro c nc h a acc
    exact ⟨_, runSegments_nil _ _ _ _ _ _ _⟩
  | cons x rest ih =>
    rcases x with ⟨tx, mx⟩
    intro c nc h a acc
    rcases hl : c.cache.lookup tx with _ | s
    · rw [runSegments_cons_miss_ok (fun l x => Except.ok (A l x)) codes tx mx rest c nc
        h a acc (A (resolveLang codes mx) tx) hl rfl]
      exact ih _ _ _ _ _
    · rw [runSegments_cons_hit (fun l x => Except.ok (A l x)) codes tx mx rest c nc
        h a acc s hl]
      exact ih _ _ _ _ _

theorem runSegments_append
    (A : String → String → Except String (List Suggestion))
    (codes : List (String × String)) :
    ∀ (xs ys : List (String × Mapping)) (c nc : Cache) (h : List String)
      (a : List (String × String)) (acc : List (List Suggestion × Mapping)),
      runSegments A codes (xs ++ ys) c nc h a acc
        = (match runSegments A codes xs c nc h a acc with
            | Except.ok r =>
              runSegments A codes ys r.cache r.next_cache r.hits r.analyzed r.collected
            | Except.error e => Except.error e) := by
  intro xs
  induction xs with
  | nil =>
    intro ys c nc h a acc
    simp [runSegments_nil]
  | cons x rest ih =>
    rcases x with ⟨tx, mx⟩
    intro ys c nc h a acc
    rcases hl : c.cache.lookup tx with _ | s
    · rcases hA : A (resolveLang codes mx) tx with e | s
      · rw [List.cons_append,
          runSegments_cons_miss_error A codes tx mx (rest ++ ys) c nc h a acc e hl hA,
          runSegments_cons_miss_error A codes tx mx rest c nc h a acc e hl hA]
      · rw [List.cons_append,
          runSegments_cons_miss_ok A codes tx mx (rest ++ ys) c nc h a acc s hl hA,
          runSegments_cons_miss_ok A codes tx mx rest c nc h a acc s hl hA]
        exact ih _ _ _ _ _ _
    · rw [List.cons_append,
        runSegments_cons_hit A codes tx mx (rest ++ ys) c nc h a acc s hl,
        runSegments_cons_hit A codes tx mx rest c nc h a acc s hl]
      exact ih _ _ _ _ _ _

/-! ## Concrete fixtures used by the witnesses -/

def cd0 : CheckData := ⟨10, "file:///a.typ", "/a.typ"⟩

def stA : State :=
  { world := ⟨"/main.typ", none, [("/a.typ", "hello")]⟩
    cache := Cache.new
    check := none
    options := ⟨1000, none, []⟩ }

def stB : State := { stA with check := some cd0 }

def stC : State := { stA with options := ⟨1000, some 7, []⟩ }

/-! ## Claim theorems -/

/-- C1: `next_action` with nothing armed blocks for a message and returns it
(a bare timeout cannot happen); with a `PendingCheck` armed, a timeout
consumes it (`check` becomes `none`) and yields the run-check action carrying
that check's URL and path, while a message arriving first is returned with the
pending check left armed unchanged for the next call. -/
theorem next_action_spec (st : State) (m : Msg) (cd : CheckData) :
    (st.check = none →
      st.next_action (RecvOutcome.msg m) = some (Action.message m, st)
      ∧ st.next_action RecvOutcome.timeout = none)
    ∧ (st.check = some cd →
      st.next_action RecvOutcome.timeout
        = some (Action.check ⟨cd.check_time, cd.url, cd.path⟩, { st with check := none })
      ∧ st.next_action (RecvOutcome.msg m) = some (Action.message m, st)
      ∧ ((st.next_action (RecvOutcome.msg m)).map (fun a => a.2.check)) = some (some cd)) := by
  constructor
  · intro h
    simp [State.next_action, h]
  · intro h
    simp [State.next_action, h]

theorem next_action_spec_witness :
    (stA.next_action (RecvOutcome.msg 5) = some (Action.message 5, stA)
      ∧ stA.next_action RecvOutcome.timeout = none)
    ∧ (stB.next_action RecvOutcome.timeout
        = some (Action.check ⟨10, "file:///a.typ", "/a.typ"⟩, { stB with check := none })
      ∧ stB.next_action (RecvOutcome.msg 5) = some (Action.message 5, stB)) := by
  refine ⟨(next_action_spec stA 5 cd0).1 rfl, ?_, ?_⟩
  · exact ((next_action_spec stB 5 cd0).2 rfl).1
  · exact ((next_action_spec stB 5 cd0).2 rfl).2.1

/-- C2: after processing any sequence of lifecycle events at most one
`PendingCheck` is live; an arming event installs exactly its own check data
regardless of what was armed before (replacement, never accumulation); and
appending an arming event to any event sequence leaves precisely that event's
check armed — the most recently armed deadline and document are the only ones
honored. -/
theorem pending_check_arming (st : State) (now : Nat) (e : Event) (cd : CheckData)
    (es : List (Nat × Event)) :
    pendingCount (processEvents st es) ≤ 1
    ∧ (armedData st.options now e = some cd → (applyEvent st now e).check = some cd)
    ∧ (armedData st.options now e = some cd →
        (processEvents st (es ++ [(now, e)])).check = some cd) := by
  refine ⟨pendingCount_le_one _, applyEvent_check_armed st now e cd, ?_⟩
  intro h
  rw [processEvents_append]
  show (processEvents (applyEvent (processEvents st es) now e) []).check = some cd
  exact applyEvent_check_armed _ now e cd (by rw [processEvents_options]; exact h)

theorem pending_check_arming_witness :
    pendingCount (processEvents stA [(0, Event.save "file:///b.typ" "/b.typ")]) ≤ 1
    ∧ (processEvents stA
        ([(0, Event.save "file:///b.typ" "/b.typ")]
          ++ [(3, Event.save "file:///a.typ" "/a.typ")])).check
      = some ⟨3, "file:///a.typ", "/a.typ"⟩ := by
  refine ⟨(pending_check_arming stA 3 (Event.save "file:///a.typ" "/a.typ")
      ⟨3, "file:///a.typ", "/a.typ"⟩ [(0, Event.save "file:///b.typ" "/b.typ")]).1, ?_⟩
  exact (pending_check_arming stA 3 (Event.save "file:///a.typ" "/a.typ")
      ⟨3, "file:///a.typ", "/a.typ"⟩ [(0, Event.save "file:///b.typ" "/b.typ")]).2.2 rfl

/-- C3: with `on_change` unset, a change event only rewrites the document's
shadow buffer — in particular the pending-check slot is untouched; with
`on_change = some d`, a change event arms a check with deadline `now + d` for
the changed document, replacing any armed check (so an intervening change
supersedes the earlier deadline). -/
theorem debounce_spec (st : State) (now : Nat) (url path : String)
    (f : String → String) (d : Nat) :
    (st.options.on_change = none →
      st.file_change now url path f
        = { st with
              world := { st.world with
                shadows := st.world.shadows.map
                  (fun p => if p.1 == path then (p.1, f p.2) else p) } }
      ∧ (st.file_change now url path f).check = st.check)
    ∧ (st.options.on_change = some d →
      st.file_change now url path f
        = { st with
              world := { st.world with
                shadows := st.world.shadows.map
                  (fun p => if p.1 == path then (p.1, f p.2) else p) },
              check := some ⟨now + d, url, path⟩ }) := by
  constructor
  · intro h
    constructor <;> simp [State.file_change, h]
  · intro h
    simp [State.file_change, h]

theorem debounce_spec_witness :
    (stA.file_change 5 "file:///a.typ" "/a.typ" (fun s => s ++ "!")
        = { stA with
              world := { stA.world with
                shadows := stA.world.shadows.map
                  (fun p => if p.1 == "/a.typ" then (p.1, p.2 ++ "!") else p) } }
      ∧ (stA.file_change 5 "file:///a.typ" "/a.typ" (fun s => s ++ "!")).check = none)
    ∧ stC.file_change 5 "file:///a.typ" "/a.typ" (fun s => s ++ "!")
        = { stC with
              world := { stC.world with
                shadows := stC.world.shadows.map
                  (fun p => if p.1 == "/a.typ" then (p.1, p.2 ++ "!") else p) },
              check := some ⟨5 + 7, "file:///a.typ", "/a.typ"⟩ } := by
  exact ⟨(debounce_spec stA 5 "file:///a.typ" "/a.typ" (fun s => s ++ "!") 7).1 rfl,
    (debounce_spec stC 5 "file:///a.typ" "/a.typ" (fun s => s ++ "!") 7).2 rfl⟩

theorem get_diagnostics_check (st : State) (ext : Externals) (path : String) :
    ((st.get_diagnostics ext path).2).check = st.check := by
  unfold State.get_diagnostics
  rcases hc : ext.compile st.world with ds | doc
  · rfl
  · simp only []
    split <;> rfl

def mapping0 : Mapping := ⟨"en-US", 0⟩

def sugg0 : Suggestion := ⟨"TEH_CAT", "Possible typo", ["The"], 0, 3⟩

def extFailAnalyze : Externals :=
  { compile := fun _ => Except.ok 0
    segment := fun _ _ _ => [("Teh cat sat.", mapping0)]
    analyze := fun _ _ => Except.error "backend down"
    finishDiags := fun _ => [] }

def extFailCompile : Externals :=
  { compile := fun _ => Except.error ["parse error"]
    segment := fun _ _ _ => []
    analyze := fun _ _ => Except.ok []
    finishDiags := fun _ => [] }

/-- C5: an analyzer failure aborts the whole pass: `check_change` publishes
nothing for the trigger (not even partial diagnostics for segments already
processed), swallows the error and returns normally, and schedules no retry —
the pending-check slot is exactly what it was before the pass, so only the
next trigger causes another pass. -/
theorem analyzer_error_aborts_pass (st : State) (ext : Externals) (path url : String)
    (e : String) (h : (st.get_diagnostics ext path).1 = Except.error e) :
    (st.check_change ext path url).1 = none
    ∧ ((st.check_change ext path url).2).check = st.check := by
  have hchk := get_diagnostics_check st ext path
  rcases hp : st.get_diagnostics ext path with ⟨r, st2⟩
  rw [hp] at h hchk
  simp at h hchk
  subst h
  simp [State.check_change, hp, hchk]

theorem analyzer_error_aborts_pass_witness :
    (stA.check_change extFailAnalyze "/a.typ" "file:///a.typ").1 = none
    ∧ ((stA.check_change extFailAnalyze "/a.typ" "file:///a.typ").2).check = none :=
  analyzer_error_aborts_pass stA extFailAnalyze "/a.typ" "file:///a.typ" "backend down" rfl

/-- C6: a compile failure at the start of a pass makes `get_diagnostics` log
the compiler's diagnostics and return `Ok(vec![])` — not an error — leaving
the state untouched, and `check_change` then publishes that empty list for
the triggering document. -/
theorem compile_failure_degrades (st : State) (ext : Externals) (path url : String)
    (ds : List String) (h : ext.compile st.world = Except.error ds) :
    st.get_diagnostics ext path = (Except.ok [], st)
    ∧ (st.check_change ext path url).1 = some [] := by
  have h1 : st.get_diagnostics ext path = (Except.ok [], st) := by
    unfold State.get_diagnostics
    rw [h]
  exact ⟨h1, by simp [State.check_change, h1]⟩

theorem compile_failure_degrades_witness :
    stA.get_diagnostics extFailCompile "/a.typ" = (Except.ok [], stA)
    ∧ (stA.check_change extFailCompile "/a.typ" "file:///a.typ").1 = some [] :=
  compile_failure_degrades stA extFailCompile "/a.typ" "file:///a.typ" ["parse error"] rfl

/-- C7: a fix request anchored on a diagnostic whose payload parses as `n`
replacement strings yields exactly `n` candidates in payload order — the i-th
titled `Replace with "<i-th replacement>"`, carrying one text edit replacing
exactly the diagnostic's range with that replacement, preferred only for
`i = 0` — while a missing payload or a payload that fails to parse as a
string list yields no candidates and no error. -/
theorem code_action_spec (params : CodeActionParams) (d : Diagnostic) (j : Json)
    (reps : List String) :
    (params.diagnostics.getLast? = some d → d.data = some j →
      parseStringList j = some reps →
      ∃ acts, code_action params = some acts
        ∧ acts.length = reps.length
        ∧ ∀ i (hi : i < reps.length) (ha : i < acts.length),
            acts[i].title = "Replace with \"" ++ reps[i] ++ "\""
            ∧ acts[i].edit = some ⟨[(params.uri, [⟨d.range, reps[i]⟩])]⟩
            ∧ acts[i].is_preferred = some (i == 0))
    ∧ (params.diagnostics.getLast? = some d → d.data = none →
        code_action params = none)
    ∧ (params.diagnostics.getLast? = some d → d.data = some j →
        parseStringList j = none → code_action params = none) := by
  refine ⟨?_, ?_, ?_⟩
  · intro h1 h2 h3
    refine ⟨reps.enum.map (fun iv =>
      { title := "Replace with \"" ++ iv.2 ++ "\""
        kind := some "quickfix"
        diagnostics := some params.diagnostics
        edit := some ⟨[(params.uri, [⟨d.range, iv.2⟩])]⟩
        is_preferred := some (iv.1 == 0) }), ?_, ?_, ?_⟩
    · simp [code_action, h1, h2, h3]
    · simp
    · intro i hi ha
      refine ⟨?_, ?_, ?_⟩ <;> simp [List.getElem_map, List.getElem_enum]
  · intro h1 h2
    simp [code_action, h1, h2]
  · intro h1 h2 h3
    simp [code_action, h1, h2, h3]

def diag0 : Diagnostic :=
  { range := ⟨⟨0, 0⟩, ⟨0, 3⟩⟩
    severity := some 3
    code := some "TEH_CAT"
    message := "Possible typo"
    data := some (Json.arr [Json.str "foo", Json.str "bar"]) }

def params0 : CodeActionParams := ⟨"file:///a.typ", [diag0]⟩

def diag1 : Diagnostic := { diag0 with data := none }

def params1 : CodeActionParams := ⟨"file:///a.typ", [diag1]⟩

def diag2 : Diagnostic := { diag0 with data := some (Json.str "oops") }

def params2 : CodeActionParams := ⟨"file:///a.typ", [diag2]⟩

theorem code_action_spec_witness :
    (∃ acts, code_action params0 = some acts
      ∧ acts.length = (["foo", "bar"] : List String).length
      ∧ ∀ i (hi : i < (["foo", "bar"] : List String).length) (ha : i < acts.length),
          acts[i].title = "Replace with \"" ++ (["foo", "bar"] : List String)[i] ++ "\""
          ∧ acts[i].edit
              = some ⟨[(params0.uri, [⟨diag0.range, (["foo", "bar"] : List String)[i]⟩])]⟩
          ∧ acts[i].is_preferred = some (i == 0))
    ∧ code_action params1 = none
    ∧ code_action params2 = none := by
  refine ⟨?_, ?_, ?_⟩
  · exact (code_action_spec params0 diag0 (Json.arr [Json.str "foo", Json.str "bar"])
      ["foo", "bar"]).1 rfl rfl rfl
  · exact (code_action_spec params1 diag1 Json.null ["x"]).2.1 rfl rfl
  · exact (code_action_spec params2 diag2 (Json.str "oops") ["x"]).2.2 rfl rfl rfl

/-- C4: `Cache::get` consumes its entry on a hit; hence in one pass over a
segment list in which the text `t` (cached from the previous pass with
suggestions `s`) occurs twice, the first occurrence reuses `s` — byte for
byte the stored value, with no analyzer call — and the second occurrence is a
cache miss: the pass performs exactly one analyzer invocation for `t`, whose
fresh result is what gets collected for the second occurrence. -/
theorem cache_get_consumes_dup (A : String → String → List Suggestion)
    (codes : List (String × String)) (c : Cache) (t : String) (s : List Suggestion)
    (m1 m2 : Mapping) (s1 s2 : List (String × Mapping))
    (hc : c.cache.lookup t = some s)
    (h1 : t ∉ s1.map Prod.fst) (h2 : t ∉ s2.map Prod.fst) :
    ((Cache.get c t).1 = some s ∧ ((Cache.get c t).2).cache.lookup t = none)
    ∧ ∃ r, runSegments (fun l x => Except.ok (A l x)) codes
          (s1 ++ ((t, m1) :: (s2 ++ [(t, m2)]))) c Cache.new [] [] []
        = Except.ok r
      ∧ (s, m1) ∈ r.collected
      ∧ (A (resolveLang codes m2) t, m2) ∈ r.collected
      ∧ r.analyzed.countP (fun p => p.2 == t) = 1
      ∧ t ∈ r.hits := by
  have hget : Cache.get c t = (some s, ⟨c.cache.filter (fun p => !(p.1 == t))⟩) :=
    Cache.get_hit c t s hc
  refine ⟨⟨by rw [hget], by rw [hget]; exact lookup_filter_key_self t c.cache⟩, ?_⟩
  obtain ⟨r1, hr1⟩ := runSegments_ok_of_total A codes s1 c Cache.new [] [] []
  have hc1 : r1.cache.cache.lookup t = some s := by
    have hpres := runSegments_lookup_preserved (fun l x => Except.ok (A l x)) codes t s1
      c Cache.new [] [] [] h1
    rw [hr1] at hpres
    simpa [passCache, hc] using hpres
  have e1 : runSegments (fun l x => Except.ok (A l x)) codes
      (s1 ++ ((t, m1) :: (s2 ++ [(t, m2)]))) c Cache.new [] [] []
      = runSegments (fun l x => Except.ok (A l x)) codes ((t, m1) :: (s2 ++ [(t, m2)]))
          r1.cache r1.next_cache r1.hits r1.analyzed r1.collected := by
    rw [runSegments_append]
    rw [hr1]
  have e2 := runSegments_cons_hit (fun l x => Except.ok (A l x)) codes t m1
    (s2 ++ [(t, m2)]) r1.cache r1.next_cache r1.hits r1.analyzed r1.collected s hc1
  obtain ⟨r2, hr2⟩ := runSegments_ok_of_total A codes s2
    ⟨r1.cache.cache.filter (fun p => !(p.1 == t))⟩ (r1.next_cache.insert t s)
    (r1.hits ++ [t]) r1.analyzed (r1.collected ++ [(s, m1)])
  have e3 : runSegments (fun l x => Except.ok (A l x)) codes (s2 ++ [(t, m2)])
      ⟨r1.cache.cache.filter (fun p => !(p.1 == t))⟩ (r1.next_cache.insert t s)
      (r1.hits ++ [t]) r1.analyzed (r1.collected ++ [(s, m1)])
      = runSegments (fun l x => Except.ok (A l x)) codes [(t, m2)]
          r2.cache r2.next_cache r2.hits r2.analyzed r2.collected := by
    rw [runSegments_append]
    rw [hr2]
  have hc2 : r2.cache.cache.lookup t = none := by
    have hpres := runSegments_lookup_preserved (fun l x => Except.ok (A l x)) codes t s2
      ⟨r1.cache.cache.filter (fun p => !(p.1 == t))⟩ (r1.next_cache.insert t s)
      (r1.hits ++ [t]) r1.analyzed (r1.collected ++ [(s, m1)]) h2
    rw [hr2] at hpres
    simpa [passCache, lookup_filter_key_self] using hpres
  have e4 := runSegments_cons_miss_ok (fun l x => Except.ok (A l x)) codes t m2 []
    r2.cache r2.next_cache r2.hits r2.analyzed r2.collected
    (A (resolveLang codes m2) t) hc2 rfl
  refine ⟨⟨r2.collected ++ [(A (resolveLang codes m2) t, m2)],
      r2.next_cache.insert t (A (resolveLang codes m2) t), r2.cache,
      r2.hits, r2.analyzed ++ [(resolveLang codes m2, t)]⟩, ?_, ?_, ?_, ?_, ?_⟩
  · rw [e1, e2, e3, e4, runSegments_nil]
  · have hmem : (s, m1) ∈ r2.collected :=
      runSegments_collected_mono _ codes s2 _ _ _ _ _ r2 hr2 (s, m1) (by simp)
    exact List.mem_append_left _ hmem
  · simp
  · have hz : r2.analyzed.countP (fun p => p.2 == t) = 0 := by
      rw [List.countP_eq_zero]
      intro p hp
      have hfrom2 := runSegments_analyzed_from (fun l x => Except.ok (A l x)) codes s2
        _ _ _ _ _ p (by rw [hr2]; exact hp)
      have hp1 : p.2 ≠ t → ¬((fun q => q.2 == t) p = true) := by
        intro hne hbe
        exact hne (by simpa using hbe)
      rcases hfrom2 with hin1 | ⟨tm, htm, hpe⟩
      · have hfrom1 := runSegments_analyzed_from (fun l x => Except.ok (A l x)) codes s1
          c Cache.new [] [] [] p (by rw [hr1]; exact hin1)
        rcases hfrom1 with hnil | ⟨tm, htm, hpe⟩
        · simp at hnil
        · refine hp1 ?_
          intro hpt
          refine h1 ?_
          have : tm.1 = t := by rw [hpe] at hpt; simpa using hpt
          rw [← this]
          exact List.mem_map_of_mem Prod.fst htm
      · refine hp1 ?_
        intro hpt
        refine h2 ?_
        have : tm.1 = t := by rw [hpe] at hpt; simpa using hpt
        rw [← this]
        exact List.mem_map_of_mem Prod.fst htm
    show (r2.analyzed ++ [(resolveLang codes m2, t)]).countP (fun p => p.2 == t) = 1
    rw [List.countP_append, hz]
    simp
  · show t ∈ r2.hits
    have hm := runSegments_hits_mono (fun l x => Except.ok (A l x)) codes s2
      ⟨r1.cache.cache.filter (fun p => !(p.1 == t))⟩ (r1.next_cache.insert t s)
      (r1.hits ++ [t]) r1.analyzed (r1.collected ++ [(s, m1)]) t (by simp)
    rw [hr2] at hm
    exact hm

def cacheDup : Cache := ⟨[("dup", [sugg0])]⟩

theorem cache_get_consumes_dup_witness :
    ((Cache.get cacheDup "dup").1 = some [sugg0]
      ∧ ((Cache.get cacheDup "dup").2).cache.lookup "dup" = none)
    ∧ ∃ r, runSegments (fun _ _ => Except.ok ([] : List Suggestion)) []
          [("dup", mapping0), ("other", mapping0), ("dup", mapping0)]
          cacheDup Cache.new [] [] [] = Except.ok r
      ∧ ([sugg0], mapping0) ∈ r.collected
      ∧ (([] : List Suggestion), mapping0) ∈ r.collected
      ∧ r.analyzed.countP (fun p => p.2 == "dup") = 1
      ∧ "dup" ∈ r.hits := by
  exact cache_get_consumes_dup (fun _ _ => []) [] cacheDup "dup" [sugg0] mapping0 mapping0
    [] [("other", mapping0)] rfl (by simp) (by decide)

theorem lookup_hashMapInsert_self (m : List (String × String)) (k v : String) :
    (hashMapInsert m k v).lookup k = some v := by
  unfold hashMapInsert
  rw [lookup_cons_eq]
  simp

theorem lookup_hashMapInsert_isSome (m : List (String × String)) (k v a : String)
    (h : (m.lookup a).isSome) : ((hashMapInsert m k v).lookup a).isSome := by
  unfold hashMapInsert
  rw [lookup_cons_eq]
  by_cases ha : a = k
  · simp [ha]
  · rw [if_neg ha, lookup_filter_key_other k a ha]
    exact h

theorem foldl_insert_isSome (codes : List String) :
    ∀ (init : List (String × String)) (a : String), (init.lookup a).isSome →
      ((codes.foldl (fun m lang => hashMapInsert m (baseTag lang) lang) init).lookup
        a).isSome := by
  induction codes with
  | nil =>
    intro init a h
    exact h
  | cons x rest ih =>
    intro init a h
    exact ih _ a (lookup_hashMapInsert_isSome init (baseTag x) x a h)

theorem foldl_insert_covers (codes : List String) :
    ∀ (init : List (String × String)) (lang : String), lang ∈ codes →
      ((codes.foldl (fun m l => hashMapInsert m (baseTag l) l) init).lookup
        (baseTag lang)).isSome := by
  induction codes with
  | nil =>
    intro init lang h
    cases h
  | cons x rest ih =>
    intro init lang h
    rcases List.mem_cons.mp h with hx | hr
    · subst hx
      refine foldl_insert_isSome rest _ _ ?_
      rw [lookup_hashMapInsert_self]
      rfl
    · exact ih _ lang hr

/-- C8: the loop's language-resolution pipeline (`create_language_map` over
the configured tags plus the per-segment lookup) behaves exactly as the spec
words it: strip the region suffix from the segment's tag, use the configured
override for that base tag when one exists, else the full tag; every
configured tag registers an override under its own base tag; and every
analyzer invocation of a pass (each happening on a cache miss) carries
exactly the resolved tag of its segment. -/
theorem language_resolution (cfg : List String) (codes : List (String × String))
    (m : Mapping) (A : String → String → Except String (List Suggestion)) :
    resolveLang codes m = resolveLangSpec codes m.language
    ∧ (∀ lang, lang ∈ cfg → ((create_language_map cfg).lookup (baseTag lang)).isSome)
    ∧ (∀ (segs : List (String × Mapping)) (c nc : Cache) (p : String × String),
        p ∈ passAnalyzed (runSegments A codes segs c nc [] [] []) →
        ∃ tm, tm ∈ segs ∧ p = (resolveLangSpec codes tm.2.language, tm.1)) := by
  refine ⟨rfl, ?_, ?_⟩
  · intro lang hl
    exact foldl_insert_covers cfg [] lang hl
  · intro segs c nc p hp
    rcases runSegments_analyzed_from A codes segs c nc [] [] [] p hp with h0 | ⟨tm, htm, hpe⟩
    · simp at h0
    · exact ⟨tm, htm, hpe⟩

theorem language_resolution_witness :
    resolveLang (create_language_map ["en-US"]) mapping0
        = resolveLangSpec (create_language_map ["en-US"]) mapping0.language
    ∧ ((create_language_map ["en-US"]).lookup (baseTag "en-US")).isSome
    ∧ ∃ tm, tm ∈ [("Teh cat sat.", mapping0)]
        ∧ (("en-US", "Teh cat sat.") : String × String)
            = (resolveLangSpec (create_language_map ["en-US"]) tm.2.language, tm.1) := by
  refine ⟨(language_resolution ["en-US"] (create_language_map ["en-US"]) mapping0
      (fun _ _ => Except.error "e")).1, ?_, ?_⟩
  · exact (language_resolution ["en-US"] (create_language_map ["en-US"]) mapping0
      (fun _ _ => Except.error "e")).2.1 "en-US" (by simp)
  · exact (language_resolution ["en-US"] (create_language_map ["en-US"]) mapping0
      (fun _ _ => Except.error "e")).2.2 [("Teh cat sat.", mapping0)] Cache.new Cache.new
      ("en-US", "Teh cat sat.") (by decide)

/-- C10: when the analyzer fails mid-pass, `get_diagnostics` propagates the
error and leaves the session cache pointing at the *old* cache as the pass's
consuming lookups mutated it (the partially built new cache is discarded):
every text that was a hit before the failure has been removed even though it
was present before the pass, so a retry over those segments re-invokes the
analyzer for them although their text is unchanged. -/
theorem failed_pass_cache_not_atomic (st : State) (ext : Externals) (path : String)
    (doc : Doc) (pe : PassError)
    (hc : ext.compile st.world = Except.ok doc)
    (hr : runSegments ext.analyze st.options.language_codes
        (ext.segment doc st.options.chunk_size path) st.cache Cache.new [] [] []
      = Except.error pe) :
    st.get_diagnostics ext path = (Except.error pe.err, { st with cache := pe.cache })
    ∧ (∀ t, t ∈ pe.hits →
        pe.cache.cache.lookup t = none ∧ st.cache.cache.lookup t ≠ none)
    ∧ (∀ t, t ∈ pe.hits → ∀ (m : Mapping) (rest : List (String × Mapping)),
        (resolveLang st.options.language_codes m, t) ∈
          passAnalyzed (runSegments ext.analyze st.options.language_codes
            ((t, m) :: rest) pe.cache Cache.new [] [] [])) := by
  refine ⟨?_, ?_, ?_⟩
  · simp only [State.get_diagnostics, hc, hr]
  · intro t ht
    exact runSegments_error_hits_removed ext.analyze st.options.language_codes
      _ _ _ _ _ _ pe hr t ht (by simp)
  · intro t ht m rest
    have hnone : pe.cache.cache.lookup t = none :=
      (runSegments_error_hits_removed ext.analyze st.options.language_codes
        _ _ _ _ _ _ pe hr t ht (by simp)).1
    rcases hA : ext.analyze (resolveLang st.options.language_codes m) t with e | s
    · rw [runSegments_cons_miss_error ext.analyze st.options.language_codes t m rest
        pe.cache Cache.new [] [] [] e hnone hA]
      simp [passAnalyzed]
    · rw [runSegments_cons_miss_ok ext.analyze st.options.language_codes t m rest
        pe.cache Cache.new [] [] [] s hnone hA]
      exact runSegments_analyzed_mono ext.analyze st.options.language_codes rest
        _ _ _ _ _ _ (by simp)

def stD : State := { stA with cache := ⟨[("a", [sugg0])]⟩ }

def extDup : Externals :=
  { compile := fun _ => Except.ok 0
    segment := fun _ _ _ => [("a", mapping0), ("x", mapping0)]
    analyze := fun _ _ => Except.error "backend down"
    finishDiags := fun _ => [] }

def peD : PassError := ⟨"backend down", ⟨[]⟩, ["a"], [("en-US", "x")]⟩

theorem failed_pass_cache_not_atomic_witness :
    stD.get_diagnostics extDup "/a.typ"
        = (Except.error "backend down", { stD with cache := ⟨[]⟩ })
    ∧ (peD.cache.cache.lookup "a" = none ∧ stD.cache.cache.lookup "a" ≠ none)
    ∧ ("en-US", "a") ∈ passAnalyzed (runSegments extDup.analyze
        stD.options.language_codes [("a", mapping0)] peD.cache Cache.new [] [] []) := by
  have h := failed_pass_cache_not_atomic stD extDup "/a.typ" 0 peD rfl rfl
  exact ⟨h.1, h.2.1 "a" (by decide), h.2.2 "a" (by decide) mapping0 []⟩

def extPass : Externals :=
  { compile := fun _ => Except.ok 0
    segment := fun _ _ _ => [("Teh cat sat.", mapping0)]
    analyze := fun _ _ => Except.ok [sugg0]
    finishDiags := fun _ => [] }

def extPassFail : Externals :=
  { compile := fun _ => Except.ok 0
    segment := fun _ _ _ => [("Teh cat sat.", mapping0)]
    analyze := fun _ _ => Except.error "analyzer invoked"
    finishDiags := fun _ => [] }

def newOpts : InitOptions :=
  { dictionary := []
    disabled_checks := []
    languages := []
    bundled := false
    jar_location := none
    host := none
    port := none
    chunk_size := 1000
    on_change := none
    root := none
    main := some "/other-main.typ" }

def stAfterPass1 : State := (stA.get_diagnostics extPass "/a.typ").2

def stSwapped : State := stAfterPass1.config_change (some newOpts) true

/-- C9 counterexample: a first pass populates the cache, then a configuration
change carrying a different main-file path is applied successfully
(`world.main` is repointed); yet the next pass consumes the pre-swap cache
entry — it completes, collecting the stored suggestions, although its
analyzer fails on every call, so the analyzer was never invoked and the entry
populated before the swap was reused. -/
theorem config_swap_reuses_cache_counterexample :
    stAfterPass1.cache.cache.lookup "Teh cat sat." = some [sugg0]
    ∧ stSwapped.world.main = "/other-main.typ"
    ∧ stSwapped.cache = stAfterPass1.cache
    ∧ runSegments extPassFail.analyze stSwapped.options.language_codes
        [("Teh cat sat.", mapping0)] stSwapped.cache Cache.new [] [] []
      = Except.ok ⟨[([sugg0], mapping0)], ⟨[("Teh cat sat.", [sugg0])]⟩, ⟨[]⟩,
          ["Teh cat sat."], []⟩
    ∧ (stSwapped.get_diagnostics extPassFail "/a.typ").1 = Except.ok [] := by
  exact ⟨rfl, rfl, rfl, rfl, rfl⟩

/-- C9 amended: a successfully applied configuration change carrying a
main-file path repoints the compiler world at that main file and root, so
later passes compile against the new main file; but it leaves the suggestion
cache (and the pending check) untouched, so entries populated before the swap
remain live and reusable by subsequent passes. -/
theorem config_change_spec (st : State) (opts : InitOptions) (m : String)
    (h : opts.main = some m) :
    (st.config_change (some opts) true).world.main = m
    ∧ (st.config_change (some opts) true).world.root = opts.root
    ∧ (st.config_change (some opts) true).cache = st.cache
    ∧ (st.config_change (some opts) true).check = st.check
    ∧ (st.config_change (some opts) true).options
        = ⟨opts.chunk_size, opts.on_change, create_language_map opts.languages⟩ := by
  simp [State.config_change, h, LtWorld.update]

theorem config_change_spec_witness :
    (stAfterPass1.config_change (some newOpts) true).world.main = "/other-main.typ"
    ∧ (stAfterPass1.config_change (some newOpts) true).world.root = newOpts.root
    ∧ (stAfterPass1.config_change (some newOpts) true).cache = stAfterPass1.cache
    ∧ (stAfterPass1.config_change (some newOpts) true).check = stAfterPass1.check
    ∧ (stAfterPass1.config_change (some newOpts) true).options
        = ⟨newOpts.chunk_size, newOpts.on_change, create_language_map newOpts.languages⟩ :=
  config_change_spec stAfterPass1 newOpts "/other-main.typ" rfl

end TypstLsp
